import Mathlib

/-
Verification of the INGInious matching-problem widget (studio editor and
task-side input loader).  The JavaScript operates on the live DOM; here the
DOM fragments the code touches are embedded as explicit state:

  * each question row is a `Row` (wrapping container id, the ids occurring in
    the substituted template markup, the markup itself, and the values of the
    two text inputs);
  * checkbox state is the list of checkbox element ids carrying the checked
    attribute;
  * each registerCodeEditor(...).setValue(...) call is recorded as an
    `Editor` value (target, mode, single-line flag, value), in call order;
  * the task page's select controls are `Sel` values (id, current value).

JavaScript strings are embedded as `List Char` so that the string surgery the
code performs (concatenation of ids, global regex replacement) can be
reasoned about structurally.  Numbers that JavaScript coerces into strings
(row indices) are rendered in decimal by `natStr`.

Fixed page elements (the checkboxes, the aggregate feedback textareas, the
questions container `questions-{pid}`, and the template element
`subproblem_matching_questions` with its unsubstituted placeholder markup)
have ids that can never collide with a generated row id of the form
`question-...` followed by a decimal index or preceded by one (their prefixes
differ, and a decimal rendering is never the literal `QUESTION`), so the id
scan performed by the code is modelled over the row elements only.
-/

/-- JavaScript strings, embedded structurally. -/
abbrev Str : Type := List Char

/-- Embed a Lean string literal as a `Str`. -/
def strL (s : String) : Str := s.toList

/-- Decimal digits of a positive number, fuel-based so that it reduces in the
kernel.  `natStrAux n n` is the decimal rendering of `n` when `n > 0`. -/
def natStrAux : Nat → Nat → Str
  | 0, _ => []
  | fuel + 1, n => if n = 0 then [] else natStrAux fuel (n / 10) ++ [Nat.digitChar (n % 10)]

/-- Decimal rendering of a natural number, as JavaScript string coercion
produces for a row index. -/
def natStr (n : Nat) : Str := if n = 0 then ['0'] else natStrAux n n

/-- Numeric value of a decimal digit character. -/
def chVal (c : Char) : Nat := c.toNat - 48

/-- Read a digit string back into a number (used only to prove that decimal
rendering is injective). -/
def parseNat (l : Str) : Nat := l.foldl (fun a c => 10 * a + chVal c) 0

/-- Does `p` occur at the head of `s`?  (The prefix test the global-replace
scan performs at each position.) -/
def begins : Str → Str → Bool
  | [], _ => true
  | _ :: _, [] => false
  | p :: ps, c :: cs => p == c && begins ps cs

/-- One left-to-right pass of JavaScript `String.replace` with a global
regex whose pattern is the literal `p`: at each position, if `p` matches,
emit `r` and resume after the match (the replacement is not rescanned);
otherwise emit the character and advance.  Fuel-based so that it reduces in
the kernel; one unit of fuel is consumed per emitted chunk. -/
def replaceAllAux (p r : Str) : Nat → Str → Str
  | _, [] => []
  | 0, s => s
  | fuel + 1, c :: cs =>
    if begins p (c :: cs) then r ++ replaceAllAux p r fuel (cs.drop (p.length - 1))
    else c :: replaceAllAux p r fuel cs

/-- Replace every occurrence of `p` in `s` by `r` (JavaScript
`s.replace(/p/g, r)` for a literal pattern `p`). -/
def replaceAll (s p r : Str) : Str := replaceAllAux p r s.length s

/-- The substitution performed on the row template markup, from
`row.replace(/PID/g, pid).replace(/QUESTION/g, index)`: first every `PID`
becomes `pid`, then every `QUESTION` in the result becomes the decimal
index. -/
def subst (s pid : Str) (index : Nat) : Str :=
  replaceAll (replaceAll s (strL "PID") pid) (strL "QUESTION") (natStr index)

/-- A question entry of a problem definition: a JSON object whose fields are
all optional (`"x" in obj` tests are modelled by `Option`). -/
structure Question where
  question : Option Str
  answer : Option Str
  success_feedback : Option Str
  error_feedback : Option Str
deriving DecidableEq

/-- A problem definition.  `mid_success_feedback` models the JSON field named
for the partly-successful aggregate outcome (the second of the three
aggregate feedback strings loaded by the initializer). -/
structure Problem where
  unshuffle : Option Bool
  centralize : Option Bool
  all_success_feedback : Option Str
  mid_success_feedback : Option Str
  all_error_feedback : Option Str
  questions : List Question
deriving DecidableEq

/-- The shared row template element `subproblem_matching_questions`: its
markup (placeholder tokens unsubstituted) and the default values its two
text inputs carry before any `.val(...)` call. -/
structure Template where
  html : Str
  question_default : Str
  answer_default : Str
deriving DecidableEq

/-- One question row in the panel: the wrapping container div created by the
code, the element ids occurring inside its substituted markup, the markup
itself, and the current values of the question/answer text inputs. -/
structure Row where
  containerId : Str
  innerIds : List Str
  html : Str
  questionVal : Str
  answerVal : Str
deriving DecidableEq

/-- Where a rich-text editor was attached: a document-wide id lookup, or a
class lookup scoped to a row container. -/
inductive EditorTarget where
  | byId (elemId : Str)
  | byClassIn (cls : Str) (containerId : Str)
deriving DecidableEq

/-- One `registerCodeEditor(target, mode, flag).setValue(value)` call. -/
structure Editor where
  target : EditorTarget
  mode : Str
  single_line : Nat
  value : Str
deriving DecidableEq

/-- The mutable document state the studio functions touch. -/
structure Dom where
  rows : List Row
  checkedIds : List Str
  editors : List Editor
  template : Template
deriving DecidableEq

/-- The id the index scan looks up: `"question-" + pid + "-" + index`. -/
def qid (pid : Str) (i : Nat) : Str := strL "question-" ++ (pid ++ '-' :: natStr i)

/-- The id assigned to a new row container:
`"question-" + index + "-" + pid` (index before pid). -/
def rowContainerId (pid : Str) (i : Nat) : Str := strL "question-" ++ (natStr i ++ '-' :: pid)

/-- Modelled from the spec: the row template markup (the HTML of element
`subproblem_matching_questions`, a template file of this repository that is
not under src/) contains, per row, exactly one element id of the
question-row family, the row lookup id `question-{pid}-{index}` obtained by
substituting the placeholder tokens. -/
def specRowInnerIds (pid : Str) (i : Nat) : List Str := [qid pid i]

/-- All element ids of the question-row family present in the document:
container ids and substituted-markup ids of the existing rows.  (Fixed page
elements carry ids from other families; see the header comment.) -/
def allIds (d : Dom) : List Str := (d.rows.map (fun r => r.containerId :: r.innerIds)).flatten

/-- `$("#question-" + pid + "-" + i).length != 0`: the scanned id exists. -/
def idTaken (d : Dom) (pid : Str) (i : Nat) : Prop := qid pid i ∈ allIds d

/-- The `while` loop of `studio_create_matching_question`, starting the scan
at `i` with the given fuel.  The fuel `(allIds d).length + 1` used below is
enough, because among any `length + 1` candidate indices at least one id is
free (the candidate ids are pairwise distinct). -/
def firstFreeAux (d : Dom) (pid : Str) : Nat → Nat → Nat
  | 0, i => i
  | fuel + 1, i => if qid pid i ∈ allIds d then firstFreeAux d pid fuel (i + 1) else i

/-- The row index chosen by `studio_create_matching_question`. -/
def firstFreeIndex (d : Dom) (pid : Str) : Nat :=
  firstFreeAux d pid ((allIds d).length + 1) 0

/-- `$("#" + id, well).attr("checked", true)`. -/
def checkAttr (d : Dom) (elemId : Str) : Dom :=
  { d with checkedIds := elemId :: d.checkedIds }

/-- The `if ("flag" in problem && problem["flag"]) $("#id", well).attr("checked", true)`
idiom: check the box exactly when the field is present and truthy. -/
def setFlagCheckbox (o : Option Bool) (elemId : Str) (d : Dom) : Dom :=
  match o with
  | some b => if b then checkAttr d elemId else d
  | none => d

/-- The `var x = ""; if ("k" in obj) x = obj["k"]` idiom: the field's value,
defaulting to the empty string when absent. -/
def orEmpty (o : Option Str) : Str :=
  match o with
  | some s => s
  | none => []

/-- `studio_create_matching_question(pid, question_data)`. -/
def studio_create_matching_question (pid : Str) (question_data : Question) (d : Dom) : Dom :=
  let index := firstFreeIndex d pid
  let row := d.template.html
  let new_row_content := subst row pid index
  let row0 : Row :=
    { containerId := strL "question-" ++ (natStr index ++ '-' :: pid)
      innerIds := specRowInnerIds pid index
      html := new_row_content
      questionVal := d.template.question_default
      answerVal := d.template.answer_default }
  let row1 : Row :=
    match question_data.question with
    | some q => { row0 with questionVal := q }
    | none => row0
  let row2 : Row :=
    match question_data.answer with
    | some a => { row1 with answerVal := a }
    | none => row1
  let success_feedback : Str := orEmpty question_data.success_feedback
  let error_feedback : Str := orEmpty question_data.error_feedback
  { d with
    rows := d.rows ++ [row2]
    editors := d.editors ++
      [ { target := EditorTarget.byClassIn (strL "subproblem_matching_success_feedback") row0.containerId
          mode := strL "rst", single_line := 1, value := success_feedback }
      , { target := EditorTarget.byClassIn (strL "subproblem_matching_error_feedback") row0.containerId
          mode := strL "rst", single_line := 1, value := error_feedback } ] }

/-- `studio_init_template_matching(well, pid, problem)`. -/
def studio_init_template_matching (pid : Str) (problem : Problem) (d : Dom) : Dom :=
  let d1 : Dom := setFlagCheckbox problem.unshuffle (strL "unshuffle-" ++ pid) d
  let d2 : Dom := setFlagCheckbox problem.centralize (strL "centralize-" ++ pid) d1
  let all_success_feedback : Str := orEmpty problem.all_success_feedback
  let mid_success_feedback : Str := orEmpty problem.mid_success_feedback
  let all_error_feedback : Str := orEmpty problem.all_error_feedback
  let d3 : Dom :=
    { d2 with editors := d2.editors ++
        [ { target := EditorTarget.byId (strL "all_success_feedback-" ++ pid)
            mode := strL "rst", single_line := 1, value := all_success_feedback }
        , { target := EditorTarget.byId (strL "partial_success_feedback-" ++ pid)
            mode := strL "rst", single_line := 1, value := mid_success_feedback }
        , { target := EditorTarget.byId (strL "all_error_feedback-" ++ pid)
            mode := strL "rst", single_line := 1, value := all_error_feedback } ] }
  problem.questions.foldl (fun dd q => studio_create_matching_question pid q dd) d3

/-- `studio_delete_matching_question(pid, question)`:
`$("#question-" + question + "-" + pid).detach()`.  The element with that id
is removed from the tree: if it is a row container the whole row goes; if it
occurs inside a row's markup that inner element goes. -/
def studio_delete_matching_question (pid : Str) (question : Nat) (d : Dom) : Dom :=
  let target := rowContainerId pid question
  let kept := d.rows.filter (fun r => decide (r.containerId ≠ target))
  let stripped := kept.map (fun r => { r with innerIds := r.innerIds.filter (fun s => decide (s ≠ target)) })
  { d with rows := stripped }

/-- Create several questions in succession (the shape of the initializer's
question loop and of repeated user clicks). -/
def createMany (pid : Str) (qs : List Question) (d : Dom) : Dom :=
  qs.foldl (fun dd q => studio_create_matching_question pid q dd) d

/-- A panel with no question rows yet, nothing checked, no editors. -/
def cleanDom (tpl : Template) : Dom :=
  { rows := [], checkedIds := [], editors := [], template := tpl }

/-- A select control of the submission view: its element id and current value. -/
structure Sel where
  id : Str
  value : Str
deriving DecidableEq

/-- The form region of the current problem on the task page. -/
structure TaskDom where
  selects : List Sel
deriving DecidableEq

/-- A JavaScript value stored under a key of the submitted input payload:
an array of strings (the only shape the loader can iterate), a plain
string-to-string object, null, or a bare string. -/
inductive JVal where
  | jarr (elems : List Str)
  | jobj (fields : List (Str × Str))
  | jnull
  | jstr (s : Str)
deriving DecidableEq

/-- The composite select id `key + "_" + i`. -/
def selId (key : Str) (i : Nat) : Str := key ++ '_' :: natStr i

/-- `$(".problem select[id='...']").val(value)`: set every select control
with the given id (ids are unique in a well-formed document, so at most one
element changes). -/
def setVal (d : TaskDom) (elemId : Str) (v : Str) : TaskDom :=
  { d with selects := d.selects.map (fun s => if s.id = elemId then { s with value := v } else s) }

/-- `load_input_matching(submissionid, key, input)`.  `key in input` is the
association lookup; `input[key].entries()` iterates index/value pairs of an
array and throws a TypeError on any non-array value (modelled by
`Except.error`). -/
def load_input_matching (submissionid key : Str) (input : List (Str × JVal)) (d : TaskDom) :
    Except Unit TaskDom :=
  match List.lookup key input with
  | none => Except.ok d
  | some (JVal.jarr elems) =>
      Except.ok (elems.enum.foldl (fun dd p => setVal dd (selId key p.1) p.2) d)
  | some _ => Except.error ()

/-- The per-control effect of a successful `load_input_matching` call: the
control whose id is `key_i` for some `i` below the array length takes the
array's value at `i`; every other control keeps its value. -/
def updSel (key : Str) (elems : List Str) (s : Sel) : Sel :=
  match elems.enum.find? (fun p => decide (s.id = selId key p.1)) with
  | some p => { s with value := p.2 }
  | none => s

/-- The row `studio_create_matching_question` appends when it chooses
index `i` on a document whose template is `tpl`. -/
def mkRow (tpl : Template) (pid : Str) (i : Nat) (qd : Question) : Row :=
  { containerId := rowContainerId pid i
    innerIds := specRowInnerIds pid i
    html := subst tpl.html pid i
    questionVal := qd.question.getD tpl.question_default
    answerVal := qd.answer.getD tpl.answer_default }

/-- The three aggregate-feedback `registerCodeEditor(...).setValue(...)`
calls of the initializer, as one state change. -/
def addAggregateEditors (pid : Str) (problem : Problem) (d : Dom) : Dom :=
  { d with editors := d.editors ++
      [ { target := EditorTarget.byId (strL "all_success_feedback-" ++ pid)
          mode := strL "rst", single_line := 1
          value := orEmpty problem.all_success_feedback }
      , { target := EditorTarget.byId (strL "partial_success_feedback-" ++ pid)
          mode := strL "rst", single_line := 1
          value := orEmpty problem.mid_success_feedback }
      , { target := EditorTarget.byId (strL "all_error_feedback-" ++ pid)
          mode := strL "rst", single_line := 1
          value := orEmpty problem.all_error_feedback } ] }

/-- The value of one select after a sequence of indexed writes scoped to
`key` (the body of the loader's `for ... of ... entries()` loop, viewed per
control). -/
def applyWrites (key : Str) (L : List (Nat × Str)) (s : Sel) : Sel :=
  L.foldl (fun sv p => if sv.id = selId key p.1 then { sv with value := p.2 } else sv) s

theorem natStrAux_stable : ∀ f g n, n ≤ f → n ≤ g → natStrAux f n = natStrAux g n := by
  intro f
  induction f with
  | zero =>
    intro g n hf _
    interval_cases n
    cases g with
    | zero => rfl
    | succ g => simp [natStrAux]
  | succ f ih =>
    intro g n hf hg
    cases g with
    | zero =>
      interval_cases n
      simp [natStrAux]
    | succ g =>
      by_cases hn : n = 0
      · simp [natStrAux, hn]
      · have hdiv : n / 10 < n := Nat.div_lt_self (Nat.pos_of_ne_zero hn) (by norm_num)
        have h1 : n / 10 ≤ f := by omega
        have h2 : n / 10 ≤ g := by omega
        simp only [natStrAux, hn, if_false]
        rw [ih g (n / 10) h1 h2]

theorem chVal_digitChar (d : Nat) (h : d < 10) : chVal (Nat.digitChar d) = d := by
  interval_cases d <;> rfl

theorem parseNat_go : ∀ f n, n ≤ f → ∀ a : Nat,
    List.foldl (fun x c => 10 * x + chVal c) a (natStrAux f n)
      = a * 10 ^ (natStrAux f n).length + n := by
  intro f
  induction f with
  | zero =>
    intro n hf a
    interval_cases n
    simp [natStrAux]
  | succ f ih =>
    intro n hf a
    by_cases hn : n = 0
    · simp [natStrAux, hn]
    · have hdiv : n / 10 < n := Nat.div_lt_self (Nat.pos_of_ne_zero hn) (by norm_num)
      have h1 : n / 10 ≤ f := by omega
      simp only [natStrAux, hn, if_false]
      rw [List.foldl_append]
      rw [ih (n / 10) h1 a]
      have hmod : n % 10 < 10 := Nat.mod_lt n (by norm_num)
      simp only [List.foldl_cons, List.foldl_nil, List.length_append, List.length_cons,
        List.length_nil, chVal_digitChar (n % 10) hmod]
      have hdm : 10 * (n / 10) + n % 10 = n := Nat.div_add_mod n 10
      rw [Nat.pow_succ, ← Nat.mul_assoc]
      generalize a * 10 ^ (natStrAux f (n / 10)).length = t
      omega

theorem parseNat_natStr (n : Nat) : parseNat (natStr n) = n := by
  by_cases hn : n = 0
  · simp [natStr, hn, parseNat, chVal]
  · unfold natStr parseNat
    rw [if_neg hn, parseNat_go n n (Nat.le_refl n) 0]
    simp

theorem natStr_inj (m n : Nat) (h : natStr m = natStr n) : m = n := by
  have := congrArg parseNat h
  rwa [parseNat_natStr, parseNat_natStr] at this

theorem digitChar_ne_dash (d : Nat) (h : d < 10) : Nat.digitChar d ≠ '-' := by
  interval_cases d <;> decide

theorem dash_not_mem_natStrAux : ∀ f n, '-' ∉ natStrAux f n := by
  intro f
  induction f with
  | zero => intro n; simp [natStrAux]
  | succ f ih =>
    intro n
    by_cases hn : n = 0
    · simp [natStrAux, hn]
    · simp only [natStrAux, hn, if_false, List.mem_append, List.mem_singleton]
      rintro (h | h)
      · exact ih (n / 10) h
      · exact digitChar_ne_dash (n % 10) (Nat.mod_lt n (by norm_num)) h.symm

theorem dash_not_mem_natStr (n : Nat) : '-' ∉ natStr n := by
  by_cases hn : n = 0
  · simp [natStr, hn]
  · simp only [natStr, hn, if_false]
    exact dash_not_mem_natStrAux n n

/-- Split a list at the first occurrence of an element. -/
theorem exists_split_first {α} (d : α) : ∀ l : List α, d ∈ l →
    ∃ a b : List α, l = a ++ d :: b ∧ d ∉ a := by
  intro l
  induction l with
  | nil => intro h; cases h
  | cons c cs ih =>
    intro h
    by_cases hc : c = d
    · exact ⟨[], cs, by simp [hc], by simp⟩
    · have hmem : d ∈ cs := by
        cases h with
        | head => exact absurd rfl hc
        | tail _ h => exact h
      obtain ⟨a, b, hab, hna⟩ := ih hmem
      refine ⟨c :: a, b, by rw [hab]; rfl, ?_⟩
      simp only [List.mem_cons]
      rintro (h2 | h2)
      · exact hc h2.symm
      · exact hna h2

/-- Two decompositions around a separator that occurs in neither prefix agree. -/
theorem sep_cancel {α} (d : α) : ∀ a b u v : List α, d ∉ a → d ∉ b →
    a ++ d :: u = b ++ d :: v → a = b ∧ u = v := by
  intro a
  induction a with
  | nil =>
    intro b u v _ hb h
    cases b with
    | nil => simpa using h
    | cons c bs =>
      simp only [List.nil_append, List.cons_append, List.cons.injEq] at h
      exact absurd (List.mem_cons_self c bs) (h.1 ▸ hb)
  | cons c as ih =>
    intro b u v ha hb h
    cases b with
    | nil =>
      simp only [List.cons_append, List.nil_append, List.cons.injEq] at h
      exact absurd (List.mem_cons_self c as) (h.1 ▸ ha)
    | cons c2 bs =>
      simp only [List.cons_append, List.cons.injEq] at h
      have ha2 : d ∉ as := fun hm => ha (List.mem_cons_of_mem c hm)
      have hb2 : d ∉ bs := fun hm => hb (List.mem_cons_of_mem c2 hm)
      obtain ⟨h1, h2⟩ := ih bs u v ha2 hb2 h.2
      exact ⟨by rw [h.1, h1], h2⟩

/-- Conjugation around a separator forces the two separator-free sides to be
equal: from `x ++ d :: p = p ++ d :: y` with `d` in neither `x` nor `y`,
conclude `x = y`. -/
theorem sep_conj {α : Type} [DecidableEq α] (d : α) : ∀ (n : Nat) (p x y : List α), p.length ≤ n →
    d ∉ x → d ∉ y → x ++ d :: p = p ++ d :: y → x = y := by
  intro n
  induction n with
  | zero =>
    intro p x y hlen hx hy h
    have hp : p = [] := List.eq_nil_of_length_eq_zero (Nat.le_zero.mp hlen)
    subst hp
    obtain ⟨h1, h2⟩ := sep_cancel d x [] [] y hx (by simp) h
    rw [h1, h2]
  | succ n ih =>
    intro p x y hlen hx hy h
    by_cases hd : d ∈ p
    · obtain ⟨p1, p2, hp, hnp1⟩ := exists_split_first d p hd
      subst hp
      have h' : x ++ d :: (p1 ++ d :: p2) = p1 ++ d :: (p2 ++ d :: y) := by
        simpa [List.append_assoc] using h
      obtain ⟨h1, h2⟩ := sep_cancel d x p1 (p1 ++ d :: p2) (p2 ++ d :: y) hx hnp1 h'
      have hlen2 : p2.length ≤ n := by
        have := hlen
        simp only [List.length_append, List.length_cons] at this
        omega
      have := ih p2 p1 y hlen2 hnp1 hy h2
      rw [h1, this]
    · obtain ⟨h1, h2⟩ := sep_cancel d x p p y hx hd h
      rw [h1, h2]

theorem begins_self_append (p b : Str) : begins p (p ++ b) = true := by
  induction p with
  | nil => rfl
  | cons c ps ih => simp [begins, ih]

theorem replaceAllAux_not_mem (pc : Char) (pt r : Str) :
    ∀ f s, pc ∉ s → replaceAllAux (pc :: pt) r f s = s := by
  intro f
  induction f with
  | zero =>
    intro s _
    cases s with
    | nil => rfl
    | cons c cs => rfl
  | succ f ih =>
    intro s hs
    cases s with
    | nil => rfl
    | cons c cs =>
      have hne : (pc == c) = false := by
        simp only [beq_eq_false_iff_ne, ne_eq]
        intro h
        exact hs (h ▸ List.mem_cons_self c cs)
      have hb : begins (pc :: pt) (c :: cs) = false := by
        simp [begins, hne]
      simp only [replaceAllAux, hb, Bool.false_eq_true, if_false, List.cons.injEq, true_and]
      exact ih cs (fun h => hs (List.mem_cons_of_mem c h))

theorem replaceAll_not_mem (pc : Char) (pt r s : Str) (h : pc ∉ s) :
    replaceAll s (pc :: pt) r = s :=
  replaceAllAux_not_mem pc pt r s.length s h

theorem replaceAllAux_stable (p r : Str) :
    ∀ f g s, s.length ≤ f → s.length ≤ g → replaceAllAux p r f s = replaceAllAux p r g s := by
  intro f
  induction f with
  | zero =>
    intro g s hf _
    have : s = [] := List.eq_nil_of_length_eq_zero (Nat.le_zero.mp hf)
    subst this
    cases g <;> rfl
  | succ f ih =>
    intro g s hf hg
    cases s with
    | nil => cases g <;> rfl
    | cons c cs =>
      cases g with
      | zero => simp at hg
      | succ g =>
        simp only [replaceAllAux]
        by_cases hb : begins p (c :: cs) = true
        · simp only [hb, if_true]
          have hlen : (cs.drop (p.length - 1)).length ≤ f := by
            rw [List.length_drop]
            simp only [List.length_cons] at hf
            omega
          have hlen2 : (cs.drop (p.length - 1)).length ≤ g := by
            rw [List.length_drop]
            simp only [List.length_cons] at hg
            omega
          rw [ih g _ hlen hlen2]
        · have hb' : begins p (c :: cs) = false := by simpa using hb
          simp only [hb', Bool.false_eq_true, if_false]
          have hlen : cs.length ≤ f := by
            simp only [List.length_cons] at hf
            omega
          have hlen2 : cs.length ≤ g := by
            simp only [List.length_cons] at hg
            omega
          rw [ih g cs hlen hlen2]

theorem replaceAllAux_hit (pc : Char) (pt r : Str) :
    ∀ (a : Str) (f : Nat) (b : Str), pc ∉ a → (a ++ (pc :: pt) ++ b).length ≤ f →
    replaceAllAux (pc :: pt) r f (a ++ (pc :: pt) ++ b)
      = a ++ r ++ replaceAll b (pc :: pt) r := by
  intro a
  induction a with
  | nil =>
    intro f b _ hf
    cases f with
    | zero => simp at hf
    | succ f =>
      have hbeg : begins (pc :: pt) ((pc :: pt) ++ b) = true := begins_self_append _ _
      simp only [List.nil_append] at hbeg ⊢
      have : (pc :: pt) ++ b = pc :: (pt ++ b) := rfl
      rw [this] at hbeg ⊢
      simp only [replaceAllAux, hbeg, if_true]
      have hdrop : (pt ++ b).drop ((pc :: pt).length - 1) = b := by
        simp only [List.length_cons, Nat.add_sub_cancel]
        exact List.drop_left pt b
      rw [hdrop]
      have hlen : b.length ≤ f := by
        simp only [List.length_cons, List.length_append] at hf
        omega
      rw [replaceAllAux_stable (pc :: pt) r f b.length b hlen (Nat.le_refl _)]
      rfl
  | cons c as ih =>
    intro f b ha hf
    cases f with
    | zero => simp at hf
    | succ f =>
      have hne : (pc == c) = false := by
        simp only [beq_eq_false_iff_ne, ne_eq]
        intro h
        exact ha (h ▸ List.mem_cons_self c as)
      have hbeg : begins (pc :: pt) (c :: (as ++ (pc :: pt) ++ b)) = false := by
        simp [begins, hne]
      have hshape : (c :: as) ++ (pc :: pt) ++ b = c :: (as ++ (pc :: pt) ++ b) := rfl
      rw [hshape]
      simp only [replaceAllAux, hbeg, if_false]
      have ha2 : pc ∉ as := fun h => ha (List.mem_cons_of_mem c h)
      have hlen : (as ++ (pc :: pt) ++ b).length ≤ f := by
        rw [hshape] at hf
        simp only [List.length_cons] at hf
        omega
      rw [ih f b ha2 hlen]
      rfl

theorem replaceAll_hit (pc : Char) (pt r a b : Str) (ha : pc ∉ a) :
    replaceAll (a ++ (pc :: pt) ++ b) (pc :: pt) r = a ++ r ++ replaceAll b (pc :: pt) r :=
  replaceAllAux_hit pc pt r a (a ++ (pc :: pt) ++ b).length b ha (Nat.le_refl _)

theorem subst_split (a b c pid : Str) (i : Nat)
    (hPa : 'P' ∉ a) (hPb : 'P' ∉ b) (hPc : 'P' ∉ c)
    (hQa : 'Q' ∉ a) (hQb : 'Q' ∉ b) (hQc : 'Q' ∉ c) (hQp : 'Q' ∉ pid) :
    subst (a ++ strL "PID" ++ b ++ strL "QUESTION" ++ c) pid i
      = a ++ pid ++ b ++ natStr i ++ c := by
  have hPID : strL "PID" = 'P' :: strL "ID" := rfl
  have hQTok : strL "QUESTION" = 'Q' :: strL "UESTION" := rfl
  have hB : 'P' ∉ b ++ strL "QUESTION" ++ c := by
    simp only [List.mem_append]
    rintro ((h | h) | h)
    · exact hPb h
    · revert h; decide
    · exact hPc h
  have hA : 'Q' ∉ a ++ pid ++ b := by
    simp only [List.mem_append]
    rintro ((h | h) | h)
    · exact hQa h
    · exact hQp h
    · exact hQb h
  unfold subst
  have hshape : a ++ strL "PID" ++ b ++ strL "QUESTION" ++ c
      = a ++ strL "PID" ++ (b ++ strL "QUESTION" ++ c) := by
    simp [List.append_assoc]
  rw [hshape, hPID]
  rw [replaceAll_hit 'P' (strL "ID") pid a (b ++ strL "QUESTION" ++ c) hPa]
  rw [replaceAll_not_mem 'P' (strL "ID") pid (b ++ strL "QUESTION" ++ c) hB]
  have hshape2 : a ++ pid ++ (b ++ strL "QUESTION" ++ c)
      = (a ++ pid ++ b) ++ strL "QUESTION" ++ c := by
    simp [List.append_assoc]
  rw [hshape2, hQTok]
  rw [replaceAll_hit 'Q' (strL "UESTION") (natStr i) (a ++ pid ++ b) c hA]
  rw [replaceAll_not_mem 'Q' (strL "UESTION") (natStr i) c hQc]

theorem subst_pid_carries_token (a b u v : Str) (i : Nat)
    (hPa : 'P' ∉ a) (hPb : 'P' ∉ b)
    (hQa : 'Q' ∉ a) (hQu : 'Q' ∉ u) (hQv : 'Q' ∉ v) (hQb : 'Q' ∉ b) :
    subst (a ++ strL "PID" ++ b) (u ++ strL "QUESTION" ++ v) i
      = a ++ u ++ natStr i ++ v ++ b := by
  have hPID : strL "PID" = 'P' :: strL "ID" := rfl
  have hQTok : strL "QUESTION" = 'Q' :: strL "UESTION" := rfl
  have hPu : 'P' ∉ b := hPb
  have hAU : 'Q' ∉ a ++ u := by
    simp only [List.mem_append]
    rintro (h | h)
    · exact hQa h
    · exact hQu h
  have hVB : 'Q' ∉ v ++ b := by
    simp only [List.mem_append]
    rintro (h | h)
    · exact hQv h
    · exact hQb h
  unfold subst
  rw [hPID]
  rw [replaceAll_hit 'P' (strL "ID") (u ++ strL "QUESTION" ++ v) a b hPa]
  rw [replaceAll_not_mem 'P' (strL "ID") (u ++ strL "QUESTION" ++ v) b hPb]
  have hshape : a ++ (u ++ strL "QUESTION" ++ v) ++ b
      = (a ++ u) ++ strL "QUESTION" ++ (v ++ b) := by
    simp [List.append_assoc]
  rw [hshape, hQTok]
  rw [replaceAll_hit 'Q' (strL "UESTION") (natStr i) (a ++ u) (v ++ b) hAU]
  rw [replaceAll_not_mem 'Q' (strL "UESTION") (natStr i) (v ++ b) hVB]
  simp [List.append_assoc]

theorem qid_inj (pid : Str) (i j : Nat) (h : qid pid i = qid pid j) : i = j := by
  unfold qid at h
  have h1 := List.append_cancel_left h
  have h2 := List.append_cancel_left h1
  have h3 : natStr i = natStr j := by simpa using h2
  exact natStr_inj i j h3

theorem rowContainerId_inj (pid : Str) (i j : Nat)
    (h : rowContainerId pid i = rowContainerId pid j) : i = j := by
  unfold rowContainerId at h
  have h1 := List.append_cancel_left h
  obtain ⟨h2, _⟩ := sep_cancel '-' (natStr i) (natStr j) pid pid
    (dash_not_mem_natStr i) (dash_not_mem_natStr j) h1
  exact natStr_inj i j h2

theorem qid_eq_container (pid : Str) (i j : Nat)
    (h : qid pid i = rowContainerId pid j) : i = j := by
  unfold qid rowContainerId at h
  have h1 := List.append_cancel_left h
  have h2 := sep_conj '-' pid.length pid (natStr j) (natStr i) (Nat.le_refl _)
    (dash_not_mem_natStr j) (dash_not_mem_natStr i) h1.symm
  exact (natStr_inj j i h2).symm

theorem exists_free_index (d : Dom) (pid : Str) :
    ∃ i, i ≤ (allIds d).length ∧ ¬ idTaken d pid i := by
  by_contra hall
  push_neg at hall
  have hinj : Function.Injective (fun i : Nat => qid pid i) := fun i j h => qid_inj pid i j h
  have hsub : (Finset.range ((allIds d).length + 1)).image (fun i => qid pid i)
      ⊆ (allIds d).toFinset := by
    intro s hs
    simp only [Finset.mem_image, Finset.mem_range] at hs
    obtain ⟨i, hi, rfl⟩ := hs
    rw [List.mem_toFinset]
    exact hall i (by omega)
  have hcard := Finset.card_le_card hsub
  rw [Finset.card_image_of_injective _ hinj, Finset.card_range] at hcard
  have hlen := List.toFinset_card_le (allIds d)
  omega

theorem firstFreeAux_ge (d : Dom) (pid : Str) : ∀ f i, i ≤ firstFreeAux d pid f i := by
  intro f
  induction f with
  | zero => intro i; exact Nat.le_refl i
  | succ f ih =>
    intro i
    simp only [firstFreeAux]
    by_cases h : qid pid i ∈ allIds d
    · rw [if_pos h]
      exact Nat.le_trans (Nat.le_succ i) (ih (i + 1))
    · rw [if_neg h]

theorem firstFreeAux_below_taken (d : Dom) (pid : Str) :
    ∀ f i k, i ≤ k → k < firstFreeAux d pid f i → idTaken d pid k := by
  intro f
  induction f with
  | zero =>
    intro i k hik hk
    simp only [firstFreeAux] at hk
    omega
  | succ f ih =>
    intro i k hik hk
    simp only [firstFreeAux] at hk
    by_cases h : qid pid i ∈ allIds d
    · rw [if_pos h] at hk
      by_cases hki : k = i
      · subst hki; exact h
      · exact ih (i + 1) k (by omega) hk
    · rw [if_neg h] at hk
      omega

theorem firstFreeAux_free (d : Dom) (pid : Str) :
    ∀ f i, (∃ j, j < f ∧ ¬ idTaken d pid (i + j)) →
    ¬ idTaken d pid (firstFreeAux d pid f i) := by
  intro f
  induction f with
  | zero =>
    intro i h
    obtain ⟨j, hj, _⟩ := h
    omega
  | succ f ih =>
    intro i h
    obtain ⟨j, hj, hfree⟩ := h
    simp only [firstFreeAux]
    by_cases hi : qid pid i ∈ allIds d
    · rw [if_pos hi]
      apply ih (i + 1)
      have hj0 : j ≠ 0 := by
        intro h0
        subst h0
        exact hfree (by simpa using hi)
      refine ⟨j - 1, by omega, ?_⟩
      have heq : i + 1 + (j - 1) = i + j := by omega
      rw [heq]
      exact hfree
    · rw [if_neg hi]
      exact hi

theorem firstFreeIndex_spec (d : Dom) (pid : Str) :
    ¬ idTaken d pid (firstFreeIndex d pid)
      ∧ ∀ j, j < firstFreeIndex d pid → idTaken d pid j := by
  constructor
  · apply firstFreeAux_free
    obtain ⟨i, hi, hfree⟩ := exists_free_index d pid
    refine ⟨i, by omega, ?_⟩
    rw [Nat.zero_add]
    exact hfree
  · intro j hj
    exact firstFreeAux_below_taken d pid _ 0 j (Nat.zero_le j) hj

theorem firstFreeIndex_eq (d : Dom) (pid : Str) (m : Nat)
    (hm : ¬ idTaken d pid m) (hbelow : ∀ j, j < m → idTaken d pid j) :
    firstFreeIndex d pid = m := by
  obtain ⟨hfree, hlow⟩ := firstFreeIndex_spec d pid
  rcases Nat.lt_trichotomy (firstFreeIndex d pid) m with h | h | h
  · exact absurd (hbelow _ h) hfree
  · exact h
  · exact absurd (hlow m h) hm

theorem create_rows_eq (pid : Str) (qd : Question) (d : Dom) :
    (studio_create_matching_question pid qd d).rows
      = d.rows ++ [mkRow d.template pid (firstFreeIndex d pid) qd] := by
  unfold studio_create_matching_question mkRow rowContainerId
  cases qd.question <;> cases qd.answer <;> rfl

theorem create_editors_eq (pid : Str) (qd : Question) (d : Dom) :
    (studio_create_matching_question pid qd d).editors
      = d.editors ++
        [ { target := EditorTarget.byClassIn (strL "subproblem_matching_success_feedback")
              (rowContainerId pid (firstFreeIndex d pid))
            mode := strL "rst", single_line := 1, value := qd.success_feedback.getD [] }
        , { target := EditorTarget.byClassIn (strL "subproblem_matching_error_feedback")
              (rowContainerId pid (firstFreeIndex d pid))
            mode := strL "rst", single_line := 1, value := qd.error_feedback.getD [] } ] := by
  unfold studio_create_matching_question rowContainerId
  cases qd.question <;> cases qd.answer <;>
    cases qd.success_feedback <;> cases qd.error_feedback <;> rfl

theorem create_checked_eq (pid : Str) (qd : Question) (d : Dom) :
    (studio_create_matching_question pid qd d).checkedIds = d.checkedIds := by
  unfold studio_create_matching_question
  cases qd.question <;> cases qd.answer <;> rfl

theorem create_template_eq (pid : Str) (qd : Question) (d : Dom) :
    (studio_create_matching_question pid qd d).template = d.template := by
  unfold studio_create_matching_question
  cases qd.question <;> cases qd.answer <;> rfl

theorem allIds_create (pid : Str) (qd : Question) (d : Dom) :
    allIds (studio_create_matching_question pid qd d)
      = allIds d ++ [rowContainerId pid (firstFreeIndex d pid), qid pid (firstFreeIndex d pid)] := by
  unfold allIds
  rw [create_rows_eq]
  simp [mkRow, specRowInnerIds]

theorem idTaken_create (pid : Str) (qd : Question) (d : Dom) (i : Nat) :
    idTaken (studio_create_matching_question pid qd d) pid i
      ↔ idTaken d pid i ∨ i = firstFreeIndex d pid := by
  unfold idTaken
  rw [allIds_create]
  simp only [List.mem_append, List.mem_cons, List.mem_singleton, List.not_mem_nil, or_false]
  constructor
  · rintro (h | h | h)
    · exact Or.inl h
    · exact Or.inr (qid_eq_container pid i _ h)
    · exact Or.inr (qid_inj pid i _ h)
  · rintro (h | rfl)
    · exact Or.inl h
    · exact Or.inr (Or.inr rfl)

theorem create_chooses (pid : Str) (qd : Question) (d : Dom) (m : Nat)
    (hm : ∀ i, idTaken d pid i ↔ i < m) :
    firstFreeIndex d pid = m := by
  apply firstFreeIndex_eq
  · rw [hm]; omega
  · intro j hj
    exact (hm j).mpr hj

theorem idTaken_create_succ (pid : Str) (qd : Question) (d : Dom) (m : Nat)
    (hm : ∀ i, idTaken d pid i ↔ i < m) (i : Nat) :
    idTaken (studio_create_matching_question pid qd d) pid i ↔ i < m + 1 := by
  rw [idTaken_create, hm, create_chooses pid qd d m hm]
  omega

theorem createMany_cons (pid : Str) (q : Question) (qs : List Question) (d : Dom) :
    createMany pid (q :: qs) d
      = createMany pid qs (studio_create_matching_question pid q d) := rfl

theorem createMany_state (pid : Str) : ∀ (qs : List Question) (d : Dom) (m : Nat),
    (∀ i, idTaken d pid i ↔ i < m) →
    (createMany pid qs d).rows.map (fun r => (r.containerId, r.innerIds))
        = d.rows.map (fun r => (r.containerId, r.innerIds))
          ++ (List.range' m qs.length).map (fun j => (rowContainerId pid j, specRowInnerIds pid j))
      ∧ (∀ i, idTaken (createMany pid qs d) pid i ↔ i < m + qs.length) := by
  intro qs
  induction qs with
  | nil =>
    intro d m hm
    refine ⟨by simp [createMany], ?_⟩
    intro i
    simpa using hm i
  | cons q qs ih =>
    intro d m hm
    have hchoose := create_chooses pid q d m hm
    have htaken := idTaken_create_succ pid q d m hm
    obtain ⟨ih1, ih2⟩ := ih (studio_create_matching_question pid q d) (m + 1) htaken
    refine ⟨?_, ?_⟩
    · rw [createMany_cons, ih1, create_rows_eq, hchoose]
      rw [List.length_cons, List.range'_succ]
      simp [mkRow, List.append_assoc]
    · intro i
      rw [createMany_cons, ih2 i, List.length_cons]
      omega

theorem createMany_checked (pid : Str) : ∀ (qs : List Question) (d : Dom),
    (createMany pid qs d).checkedIds = d.checkedIds := by
  intro qs
  induction qs with
  | nil => intro d; rfl
  | cons q qs ih =>
    intro d
    rw [createMany_cons, ih, create_checked_eq]

theorem createMany_editors_ext (pid : Str) : ∀ (qs : List Question) (d : Dom),
    ∃ t, (createMany pid qs d).editors = d.editors ++ t := by
  intro qs
  induction qs with
  | nil => intro d; exact ⟨[], by simp [createMany]⟩
  | cons q qs ih =>
    intro d
    obtain ⟨t, ht⟩ := ih (studio_create_matching_question pid q d)
    refine ⟨(studio_create_matching_question pid q d).editors.drop d.editors.length ++ t, ?_⟩
    rw [createMany_cons, ht, create_editors_eq]
    simp [List.append_assoc]

theorem cleanDom_taken (tpl : Template) (pid : Str) (i : Nat) :
    idTaken (cleanDom tpl) pid i ↔ i < 0 := by
  simp [idTaken, allIds, cleanDom]

theorem mem_allIds_iff (d : Dom) (s : Str) :
    s ∈ allIds d ↔ ∃ r ∈ d.rows, s = r.containerId ∨ s ∈ r.innerIds := by
  unfold allIds
  rw [List.mem_flatten]
  constructor
  · rintro ⟨l, hl, hs⟩
    rw [List.mem_map] at hl
    obtain ⟨r, hr, rfl⟩ := hl
    rw [List.mem_cons] at hs
    exact ⟨r, hr, hs⟩
  · rintro ⟨r, hr, hs⟩
    refine ⟨r.containerId :: r.innerIds, List.mem_map.mpr ⟨r, hr, rfl⟩, ?_⟩
    rw [List.mem_cons]
    exact hs

theorem mem_allIds_delete (pid : Str) (question : Nat) (d : Dom) (s : Str) :
    s ∈ allIds (studio_delete_matching_question pid question d)
      ↔ ∃ r ∈ d.rows, r.containerId ≠ rowContainerId pid question ∧
          (s = r.containerId ∨ (s ∈ r.innerIds ∧ s ≠ rowContainerId pid question)) := by
  unfold studio_delete_matching_question
  rw [mem_allIds_iff]
  simp only [List.mem_map, List.mem_filter, decide_eq_true_eq]
  constructor
  · rintro ⟨r', ⟨r, ⟨hr, hne⟩, rfl⟩, hcase⟩
    refine ⟨r, hr, hne, ?_⟩
    rcases hcase with h | h
    · exact Or.inl h
    · simp only [List.mem_filter, decide_eq_true_eq] at h
      exact Or.inr h
  · rintro ⟨r, hr, hne, hcase⟩
    refine ⟨{ r with innerIds := r.innerIds.filter (fun s => decide (s ≠ rowContainerId pid question)) },
      ⟨r, ⟨hr, hne⟩, rfl⟩, ?_⟩
    rcases hcase with h | ⟨h1, h2⟩
    · exact Or.inl h
    · refine Or.inr ?_
      simp only [List.mem_filter, decide_eq_true_eq]
      exact ⟨h1, h2⟩

theorem delete_noop (pid : Str) (question : Nat) (d : Dom)
    (h : rowContainerId pid question ∉ allIds d) :
    studio_delete_matching_question pid question d = d := by
  have hd : studio_delete_matching_question pid question d
      = { d with rows := ((d.rows.filter (fun r => decide (r.containerId ≠ rowContainerId pid question))).map (fun r => { r with innerIds := r.innerIds.filter (fun s => decide (s ≠ rowContainerId pid question)) })) } := rfl
  have hfil : d.rows.filter (fun r => decide (r.containerId ≠ rowContainerId pid question)) = d.rows := by
    apply List.filter_eq_self.mpr
    intro r hr
    simp only [decide_eq_true_eq]
    intro heq
    exact h (heq ▸ (mem_allIds_iff d r.containerId).mpr ⟨r, hr, Or.inl rfl⟩)
  have hmap : d.rows.map
      (fun r => { r with innerIds := r.innerIds.filter (fun s => decide (s ≠ rowContainerId pid question)) })
        = d.rows := by
    have hcongr : ∀ r ∈ d.rows,
        ({ r with innerIds := r.innerIds.filter (fun s => decide (s ≠ rowContainerId pid question)) } : Row)
          = r := by
      intro r hr
      have hfil2 : r.innerIds.filter (fun s => decide (s ≠ rowContainerId pid question)) = r.innerIds := by
        apply List.filter_eq_self.mpr
        intro s hs
        simp only [decide_eq_true_eq]
        intro heq
        exact h (heq ▸ (mem_allIds_iff d s).mpr ⟨r, hr, Or.inr hs⟩)
      rw [hfil2]
    rw [List.map_congr_left hcongr]
    simp
  rw [hd, hfil, hmap]

theorem idTaken_scenario (tpl : Template) (pid : Str) (qds : List Question) (k : Nat)
    (hk : k < qds.length) (i : Nat) :
    idTaken (studio_delete_matching_question pid k (createMany pid qds (cleanDom tpl))) pid i
      ↔ (i < qds.length ∧ i ≠ k) := by
  obtain ⟨hpairs, htaken⟩ := createMany_state pid qds (cleanDom tpl) 0 (cleanDom_taken tpl pid)
  have hpairs' : (createMany pid qds (cleanDom tpl)).rows.map (fun r => (r.containerId, r.innerIds))
      = (List.range' 0 qds.length).map (fun j => (rowContainerId pid j, specRowInnerIds pid j)) := by
    simpa [cleanDom] using hpairs
  unfold idTaken
  rw [mem_allIds_delete]
  constructor
  · rintro ⟨r, hr, hne, hcase⟩
    have hmem : (r.containerId, r.innerIds)
        ∈ (List.range' 0 qds.length).map (fun j => (rowContainerId pid j, specRowInnerIds pid j)) := by
      rw [← hpairs']
      exact List.mem_map.mpr ⟨r, hr, rfl⟩
    rw [List.mem_map] at hmem
    obtain ⟨j, hj, hpair⟩ := hmem
    have hjlt : j < qds.length := by
      have := List.mem_range'_1.mp hj
      omega
    have hcid : rowContainerId pid j = r.containerId := congrArg Prod.fst hpair
    have hinner : specRowInnerIds pid j = r.innerIds := congrArg Prod.snd hpair
    have hjk : j ≠ k := by
      intro hjk
      exact hne (hcid ▸ hjk ▸ rfl)
    rcases hcase with h | ⟨h, _⟩
    · have hij : i = j := qid_eq_container pid i j (h.trans hcid.symm)
      exact ⟨hij ▸ hjlt, hij ▸ hjk⟩
    · rw [← hinner] at h
      simp only [specRowInnerIds, List.mem_singleton] at h
      have hij : i = j := qid_inj pid i j h
      exact ⟨hij ▸ hjlt, hij ▸ hjk⟩
  · rintro ⟨hi, hik⟩
    have hmem : (rowContainerId pid i, specRowInnerIds pid i)
        ∈ (createMany pid qds (cleanDom tpl)).rows.map (fun r => (r.containerId, r.innerIds)) := by
      rw [hpairs', List.mem_map]
      exact ⟨i, List.mem_range'_1.mpr ⟨Nat.zero_le i, by omega⟩, rfl⟩
    rw [List.mem_map] at hmem
    obtain ⟨r, hr, hpair⟩ := hmem
    have hcid : r.containerId = rowContainerId pid i := congrArg Prod.fst hpair
    have hinner : r.innerIds = specRowInnerIds pid i := congrArg Prod.snd hpair
    refine ⟨r, hr, ?_, Or.inr ⟨?_, ?_⟩⟩
    · rw [hcid]
      intro heq
      exact hik (rowContainerId_inj pid i k heq)
    · rw [hinner]
      simp [specRowInnerIds]
    · intro heq
      exact hik (qid_eq_container pid i k heq)

theorem reuse_after_delete (tpl : Template) (pid : Str) (qds : List Question) (k : Nat)
    (hk : k < qds.length) :
    firstFreeIndex (studio_delete_matching_question pid k (createMany pid qds (cleanDom tpl))) pid
      = k := by
  apply firstFreeIndex_eq
  · rw [idTaken_scenario tpl pid qds k hk k]
    simp
  · intro j hj
    rw [idTaken_scenario tpl pid qds k hk j]
    omega

theorem emptyRows_taken (d : Dom) (pid : Str) (hrows : d.rows = []) (i : Nat) :
    idTaken d pid i ↔ i < 0 := by
  simp [idTaken, allIds, hrows]

theorem createMany_containerIds (d : Dom) (pid : Str) (qds : List Question)
    (hrows : d.rows = []) :
    (createMany pid qds d).rows.map (fun r => r.containerId)
      = (List.range qds.length).map (fun j => rowContainerId pid j) := by
  obtain ⟨hpairs, _⟩ := createMany_state pid qds d 0 (emptyRows_taken d pid hrows)
  have hpairs' : (createMany pid qds d).rows.map (fun r => (r.containerId, r.innerIds))
      = (List.range' 0 qds.length).map (fun j => (rowContainerId pid j, specRowInnerIds pid j)) := by
    rw [hpairs, hrows]
    simp
  have hfst := congrArg (List.map Prod.fst) hpairs'
  rw [List.map_map, List.map_map] at hfst
  rw [List.range_eq_range']
  exact hfst

theorem setFlagCheckbox_rows (o : Option Bool) (s : Str) (d : Dom) :
    (setFlagCheckbox o s d).rows = d.rows := by
  rcases o with _ | b
  · rfl
  · cases b <;> rfl

theorem createMany_editors_eq (pid : Str) (qs : List Question) (dd : Dom) :
    (createMany pid qs dd).editors
      = dd.editors ++ (createMany pid qs dd).editors.drop dd.editors.length := by
  obtain ⟨t, ht⟩ := createMany_editors_ext pid qs dd
  rw [ht, List.drop_left]

theorem init_eq (pid : Str) (problem : Problem) (d : Dom) :
    studio_init_template_matching pid problem d
      = createMany pid problem.questions
          (addAggregateEditors pid problem
            (setFlagCheckbox problem.centralize (strL "centralize-" ++ pid)
              (setFlagCheckbox problem.unshuffle (strL "unshuffle-" ++ pid) d))) := rfl

theorem setFlagCheckbox_checked (o : Option Bool) (s : Str) (d : Dom) :
    (setFlagCheckbox o s d).checkedIds = (if o = some true then [s] else []) ++ d.checkedIds := by
  rcases o with _ | b
  · simp [setFlagCheckbox]
  · cases b <;> simp [setFlagCheckbox, checkAttr]

theorem setFlagCheckbox_editors (o : Option Bool) (s : Str) (d : Dom) :
    (setFlagCheckbox o s d).editors = d.editors := by
  rcases o with _ | b
  · rfl
  · cases b <;> rfl

theorem orEmpty_eq_getD (o : Option Str) : orEmpty o = o.getD [] := by
  cases o <;> rfl

theorem init_checked_eq (pid : Str) (problem : Problem) (d : Dom) :
    (studio_init_template_matching pid problem d).checkedIds
      = (if problem.centralize = some true then [strL "centralize-" ++ pid] else [])
        ++ (if problem.unshuffle = some true then [strL "unshuffle-" ++ pid] else [])
        ++ d.checkedIds := by
  rw [init_eq, createMany_checked]
  have hagg : ∀ dd : Dom, (addAggregateEditors pid problem dd).checkedIds = dd.checkedIds :=
    fun dd => rfl
  rw [hagg, setFlagCheckbox_checked, setFlagCheckbox_checked, List.append_assoc]

theorem unshuffle_ne_centralize (pid : Str) :
    strL "unshuffle-" ++ pid ≠ strL "centralize-" ++ pid := by
  have h1 : strL "unshuffle-" ++ pid = 'u' :: (strL "nshuffle-" ++ pid) := rfl
  have h2 : strL "centralize-" ++ pid = 'c' :: (strL "entralize-" ++ pid) := rfl
  rw [h1, h2]
  intro h
  exact absurd (List.cons.injEq _ _ _ _ ▸ h).1 (by decide)

theorem init_editors_eq (pid : Str) (problem : Problem) (d : Dom) :
    ∃ t, (studio_init_template_matching pid problem d).editors
      = d.editors ++
        [ { target := EditorTarget.byId (strL "all_success_feedback-" ++ pid)
            mode := strL "rst", single_line := 1
            value := problem.all_success_feedback.getD [] }
        , { target := EditorTarget.byId (strL "partial_success_feedback-" ++ pid)
            mode := strL "rst", single_line := 1
            value := problem.mid_success_feedback.getD [] }
        , { target := EditorTarget.byId (strL "all_error_feedback-" ++ pid)
            mode := strL "rst", single_line := 1
            value := problem.all_error_feedback.getD [] } ] ++ t := by
  rw [init_eq]
  obtain ⟨t, ht⟩ := createMany_editors_ext pid problem.questions
    (addAggregateEditors pid problem
      (setFlagCheckbox problem.centralize (strL "centralize-" ++ pid)
        (setFlagCheckbox problem.unshuffle (strL "unshuffle-" ++ pid) d)))
  refine ⟨t, ?_⟩
  rw [ht]
  have hagg : ∀ dd : Dom, (addAggregateEditors pid problem dd).editors
      = dd.editors ++
        [ { target := EditorTarget.byId (strL "all_success_feedback-" ++ pid)
            mode := strL "rst", single_line := 1
            value := orEmpty problem.all_success_feedback }
        , { target := EditorTarget.byId (strL "partial_success_feedback-" ++ pid)
            mode := strL "rst", single_line := 1
            value := orEmpty problem.mid_success_feedback }
        , { target := EditorTarget.byId (strL "all_error_feedback-" ++ pid)
            mode := strL "rst", single_line := 1
            value := orEmpty problem.all_error_feedback } ] := fun dd => rfl
  rw [hagg, setFlagCheckbox_editors, setFlagCheckbox_editors]
  simp only [orEmpty_eq_getD]

theorem selId_inj (key : Str) (i j : Nat) (h : selId key i = selId key j) : i = j := by
  unfold selId at h
  have h1 := List.append_cancel_left h
  have h2 : natStr i = natStr j := by simpa using h1
  exact natStr_inj i j h2

theorem foldl_setVal (key : Str) : ∀ (L : List (Nat × Str)) (d : TaskDom),
    (L.foldl (fun dd p => setVal dd (selId key p.1) p.2) d).selects
      = d.selects.map (applyWrites key L) := by
  intro L
  induction L with
  | nil =>
    intro d
    have h : d.selects.map (applyWrites key []) = d.selects.map (fun s => s) := rfl
    rw [List.foldl_nil, h]
    simp
  | cons p L ih =>
    intro d
    rw [List.foldl_cons, ih]
    have hsel : (setVal d (selId key p.1) p.2).selects
        = d.selects.map (fun s => if s.id = selId key p.1 then { s with value := p.2 } else s) := rfl
    rw [hsel, List.map_map]
    apply List.map_congr_left
    intro s _
    simp [applyWrites, Function.comp]

theorem applyWrites_no_match (key : Str) : ∀ (L : List (Nat × Str)) (s : Sel),
    (∀ p ∈ L, s.id ≠ selId key p.1) → applyWrites key L s = s := by
  intro L
  induction L with
  | nil => intro s _; rfl
  | cons p L ih =>
    intro s hs
    have hid : s.id ≠ selId key p.1 := hs p (List.mem_cons_self p L)
    have hstep : applyWrites key (p :: L) s = applyWrites key L s := by
      simp [applyWrites, hid]
    rw [hstep]
    exact ih s (fun q hq => hs q (List.mem_cons_of_mem p hq))

theorem applyWrites_find (key : Str) : ∀ (L : List (Nat × Str)) (s : Sel),
    (L.map Prod.fst).Nodup →
    applyWrites key L s
      = match L.find? (fun p => decide (s.id = selId key p.1)) with
        | some p => { s with value := p.2 }
        | none => s := by
  intro L
  induction L with
  | nil => intro s _; rfl
  | cons p L ih =>
    intro s hnd
    rw [List.map_cons, List.nodup_cons] at hnd
    obtain ⟨hp, hnd'⟩ := hnd
    by_cases hid : s.id = selId key p.1
    · have hfind : (p :: L).find? (fun q => decide (s.id = selId key q.1)) = some p := by
        rw [List.find?_cons_of_pos]
        simp [hid]
      rw [hfind]
      have hstep : applyWrites key (p :: L) s = applyWrites key L { s with value := p.2 } := by
        simp [applyWrites, hid]
      rw [hstep]
      apply applyWrites_no_match
      intro q hq heq
      have hq1 : q.1 = p.1 := selId_inj key q.1 p.1 (heq.symm.trans hid)
      exact hp (hq1 ▸ List.mem_map.mpr ⟨q, hq, rfl⟩)
    · have hfind : (p :: L).find? (fun q => decide (s.id = selId key q.1))
          = L.find? (fun q => decide (s.id = selId key q.1)) := by
        rw [List.find?_cons_of_neg]
        simp [hid]
      rw [hfind]
      have hstep : applyWrites key (p :: L) s = applyWrites key L s := by
        simp [applyWrites, hid]
      rw [hstep]
      exact ih s hnd'

theorem taskDom_ext (t1 t2 : TaskDom) (h : t1.selects = t2.selects) : t1 = t2 := by
  cases t1
  cases t2
  cases h
  rfl

theorem load_input_none (sid key : Str) (input : List (Str × JVal)) (d : TaskDom)
    (h : List.lookup key input = none) :
    load_input_matching sid key input d = Except.ok d := by
  unfold load_input_matching
  rw [h]

theorem load_input_arr (sid key : Str) (input : List (Str × JVal)) (d : TaskDom)
    (elems : List Str) (h : List.lookup key input = some (JVal.jarr elems)) :
    load_input_matching sid key input d
      = Except.ok { d with selects := d.selects.map (updSel key elems) } := by
  have hstep : load_input_matching sid key input d
      = Except.ok (elems.enum.foldl (fun dd p => setVal dd (selId key p.1) p.2) d) := by
    unfold load_input_matching
    rw [h]
  rw [hstep]
  congr 1
  apply taskDom_ext
  rw [foldl_setVal key elems.enum d]
  apply List.map_congr_left
  intro s _
  rw [applyWrites_find key elems.enum s (by rw [List.enum_map_fst]; exact List.nodup_range _)]
  rfl

theorem load_input_bad (sid key : Str) (input : List (Str × JVal)) (d : TaskDom)
    (v : JVal) (h : List.lookup key input = some v) (hv : ∀ l, v ≠ JVal.jarr l) :
    load_input_matching sid key input d = Except.error () := by
  unfold load_input_matching
  rw [h]
  cases v with
  | jarr l => exact absurd rfl (hv l)
  | jobj f => rfl
  | jnull => rfl
  | jstr s => rfl

/-- Claim C1: the row index chosen by `studio_create_matching_question` is the
smallest non-negative integer whose lookup id `question-{pid}-{i}` is absent
from the document (every smaller index is taken, the chosen one is free, and
the appended row is stamped with that index); consequently, after creating
`n` rows on an empty panel and deleting the row at index `k < n`, the next
creation call chooses exactly the freed index `k`. -/
theorem claim_c1_smallest_free_index_and_reuse (d : Dom) (pid : Str) (qd : Question)
    (tpl : Template) (qds : List Question) (k : Nat) (hk : k < qds.length) :
    (¬ idTaken d pid (firstFreeIndex d pid)
      ∧ (∀ j, j < firstFreeIndex d pid → idTaken d pid j)
      ∧ ∃ r, (studio_create_matching_question pid qd d).rows = d.rows ++ [r]
          ∧ r.containerId = rowContainerId pid (firstFreeIndex d pid))
    ∧ firstFreeIndex
        (studio_delete_matching_question pid k (createMany pid qds (cleanDom tpl))) pid = k := by
  constructor
  · obtain ⟨h1, h2⟩ := firstFreeIndex_spec d pid
    exact ⟨h1, h2, mkRow d.template pid (firstFreeIndex d pid) qd, create_rows_eq pid qd d, rfl⟩
  · exact reuse_after_delete tpl pid qds k hk

theorem claim_c1_witness :
    1 < 3 ∧ firstFreeIndex
        (studio_delete_matching_question (strL "p") 1
          (createMany (strL "p") [⟨none, none, none, none⟩, ⟨none, none, none, none⟩,
            ⟨none, none, none, none⟩] (cleanDom ⟨strL "t", strL "", strL ""⟩))) (strL "p") = 1 :=
  ⟨by decide,
    (claim_c1_smallest_free_index_and_reuse (cleanDom ⟨strL "t", strL "", strL ""⟩) (strL "p")
      ⟨none, none, none, none⟩ ⟨strL "t", strL "", strL ""⟩
      [⟨none, none, none, none⟩, ⟨none, none, none, none⟩, ⟨none, none, none, none⟩]
      1 (by decide)).2⟩

/-- Claim C2: initialization is the in-order fold of the question-creation
operation over the definition's `questions` sequence, and on a clean panel
it produces rows whose container ids are `question-0-{pid}` through
`question-{N-1}-{pid}`, appended in that creation order. -/
theorem claim_c2_init_rows_in_order (pid : Str) (problem : Problem) (tpl : Template) :
    studio_init_template_matching pid problem (cleanDom tpl)
        = createMany pid problem.questions
            (addAggregateEditors pid problem
              (setFlagCheckbox problem.centralize (strL "centralize-" ++ pid)
                (setFlagCheckbox problem.unshuffle (strL "unshuffle-" ++ pid) (cleanDom tpl))))
      ∧ (studio_init_template_matching pid problem (cleanDom tpl)).rows.map
          (fun r => r.containerId)
          = (List.range problem.questions.length).map (fun j => rowContainerId pid j) := by
  refine ⟨init_eq pid problem (cleanDom tpl), ?_⟩
  rw [init_eq]
  apply createMany_containerIds
  rw [show (addAggregateEditors pid problem
      (setFlagCheckbox problem.centralize (strL "centralize-" ++ pid)
        (setFlagCheckbox problem.unshuffle (strL "unshuffle-" ++ pid) (cleanDom tpl)))).rows
    = (setFlagCheckbox problem.centralize (strL "centralize-" ++ pid)
        (setFlagCheckbox problem.unshuffle (strL "unshuffle-" ++ pid) (cleanDom tpl))).rows
    from rfl]
  rw [setFlagCheckbox_rows, setFlagCheckbox_rows]
  rfl

/-- Claim C3: the new row's markup is the template markup of element
`subproblem_matching_questions` with every `PID` replaced by the pid and
every `QUESTION` replaced by the chosen index (global substitution), wrapped
in a container whose id is `question-{i}-{pid}` (index before pid, the
reverse of the lookup id), appended after the existing rows.  The template is
decomposed around single clean occurrences of the two tokens. -/
theorem claim_c3_row_markup (d : Dom) (pid : Str) (qd : Question) (a b c : Str)
    (htpl : d.template.html = a ++ strL "PID" ++ b ++ strL "QUESTION" ++ c)
    (hPa : 'P' ∉ a) (hPb : 'P' ∉ b) (hPc : 'P' ∉ c)
    (hQa : 'Q' ∉ a) (hQb : 'Q' ∉ b) (hQc : 'Q' ∉ c) (hQp : 'Q' ∉ pid) :
    ∃ r, (studio_create_matching_question pid qd d).rows = d.rows ++ [r]
      ∧ r.containerId = strL "question-" ++ (natStr (firstFreeIndex d pid) ++ '-' :: pid)
      ∧ r.html = subst d.template.html pid (firstFreeIndex d pid)
      ∧ r.html = a ++ pid ++ b ++ natStr (firstFreeIndex d pid) ++ c := by
  refine ⟨mkRow d.template pid (firstFreeIndex d pid) qd, create_rows_eq pid qd d, rfl, rfl, ?_⟩
  show subst d.template.html pid (firstFreeIndex d pid) = _
  rw [htpl]
  exact subst_split a b c pid (firstFreeIndex d pid) hPa hPb hPc hQa hQb hQc hQp

theorem claim_c3_witness :
    ∃ r, (studio_create_matching_question (strL "p7") ⟨none, none, none, none⟩
        (cleanDom ⟨strL "a" ++ strL "PID" ++ strL "b" ++ strL "QUESTION" ++ strL "c",
          strL "", strL ""⟩)).rows
        = (cleanDom ⟨strL "a" ++ strL "PID" ++ strL "b" ++ strL "QUESTION" ++ strL "c",
            strL "", strL ""⟩).rows ++ [r]
      ∧ r.containerId = strL "question-"
          ++ (natStr (firstFreeIndex (cleanDom ⟨strL "a" ++ strL "PID" ++ strL "b"
              ++ strL "QUESTION" ++ strL "c", strL "", strL ""⟩) (strL "p7"))
            ++ '-' :: strL "p7")
      ∧ r.html = subst (cleanDom ⟨strL "a" ++ strL "PID" ++ strL "b" ++ strL "QUESTION"
          ++ strL "c", strL "", strL ""⟩).template.html (strL "p7")
          (firstFreeIndex (cleanDom ⟨strL "a" ++ strL "PID" ++ strL "b" ++ strL "QUESTION"
            ++ strL "c", strL "", strL ""⟩) (strL "p7"))
      ∧ r.html = strL "a" ++ strL "p7" ++ strL "b"
          ++ natStr (firstFreeIndex (cleanDom ⟨strL "a" ++ strL "PID" ++ strL "b"
              ++ strL "QUESTION" ++ strL "c", strL "", strL ""⟩) (strL "p7"))
          ++ strL "c" :=
  claim_c3_row_markup
    (cleanDom ⟨strL "a" ++ strL "PID" ++ strL "b" ++ strL "QUESTION" ++ strL "c",
      strL "", strL ""⟩)
    (strL "p7") ⟨none, none, none, none⟩ (strL "a") (strL "b") (strL "c") rfl
    (by decide) (by decide) (by decide) (by decide) (by decide) (by decide) (by decide)

/-- Claim C4: initialization prepends exactly the checkbox ids whose flag is
present and truthy to the checked set and touches nothing else; hence the
unshuffle (resp. centralize) checkbox ends up checked iff its flag is
present and true or it was already checked, and on a clean panel an absent
or falsy flag leaves it unchecked. -/
theorem claim_c4_checkbox_flags (pid : Str) (problem : Problem) (d : Dom) :
    (studio_init_template_matching pid problem d).checkedIds
        = (if problem.centralize = some true then [strL "centralize-" ++ pid] else [])
          ++ (if problem.unshuffle = some true then [strL "unshuffle-" ++ pid] else [])
          ++ d.checkedIds
      ∧ (strL "unshuffle-" ++ pid ∈ (studio_init_template_matching pid problem d).checkedIds
          ↔ (problem.unshuffle = some true ∨ strL "unshuffle-" ++ pid ∈ d.checkedIds))
      ∧ (strL "centralize-" ++ pid ∈ (studio_init_template_matching pid problem d).checkedIds
          ↔ (problem.centralize = some true ∨ strL "centralize-" ++ pid ∈ d.checkedIds)) := by
  refine ⟨init_checked_eq pid problem d, ?_, ?_⟩
  · rw [init_checked_eq]
    by_cases h1 : problem.unshuffle = some true <;>
      by_cases h2 : problem.centralize = some true <;>
      simp [h1, h2, unshuffle_ne_centralize pid]
  · rw [init_checked_eq]
    by_cases h1 : problem.unshuffle = some true <;>
      by_cases h2 : problem.centralize = some true <;>
      simp [h1, h2, (unshuffle_ne_centralize pid).symm]

/-- Claim C5: initialization registers, before any per-question editor, a
rich-text editor on each of the three aggregate feedback elements
(`all_success_feedback-{pid}`, `partial_success_feedback-{pid}`,
`all_error_feedback-{pid}`), with mode `rst` and the single-line flag set,
whose value is the corresponding field when present and the empty string
when absent (exact pass-through). -/
theorem claim_c5_aggregate_editors (pid : Str) (problem : Problem) (d : Dom) :
    ∃ t, (studio_init_template_matching pid problem d).editors
      = d.editors ++
        [ { target := EditorTarget.byId (strL "all_success_feedback-" ++ pid)
            mode := strL "rst", single_line := 1
            value := problem.all_success_feedback.getD [] }
        , { target := EditorTarget.byId (strL "partial_success_feedback-" ++ pid)
            mode := strL "rst", single_line := 1
            value := problem.mid_success_feedback.getD [] }
        , { target := EditorTarget.byId (strL "all_error_feedback-" ++ pid)
            mode := strL "rst", single_line := 1
            value := problem.all_error_feedback.getD [] } ] ++ t :=
  init_editors_eq pid problem d

/-- Claim C6: the created row's question-text input holds
`questionData.question` when that field is present and the template's default
value otherwise (the input is not cleared); likewise for the answer-text
input; and exactly two per-question feedback editors are appended, loaded
with the success/error feedback fields, defaulting to the empty string when
absent. -/
theorem claim_c6_row_population (pid : Str) (qd : Question) (d : Dom) :
    ∃ r, (studio_create_matching_question pid qd d).rows = d.rows ++ [r]
      ∧ r.questionVal = qd.question.getD d.template.question_default
      ∧ r.answerVal = qd.answer.getD d.template.answer_default
      ∧ (studio_create_matching_question pid qd d).editors
          = d.editors ++
            [ { target := EditorTarget.byClassIn (strL "subproblem_matching_success_feedback")
                  (rowContainerId pid (firstFreeIndex d pid))
                mode := strL "rst", single_line := 1, value := qd.success_feedback.getD [] }
            , { target := EditorTarget.byClassIn (strL "subproblem_matching_error_feedback")
                  (rowContainerId pid (firstFreeIndex d pid))
                mode := strL "rst", single_line := 1, value := qd.error_feedback.getD [] } ] :=
  ⟨mkRow d.template pid (firstFreeIndex d pid) qd, create_rows_eq pid qd d, rfl, rfl,
    create_editors_eq pid qd d⟩

/-- Claim C7: when the key is absent from the payload the loader mutates
nothing; when the payload holds an array under the key, the select control
with id `key_i` (scoped to the problem's form) takes the array's value at
`i` for each position below the array length, every other control keeps its
value (extra values match no control and are dropped; controls beyond the
array length keep their default), and nothing else changes. -/
theorem claim_c7_load_input (sid key : Str) (input : List (Str × JVal)) (d : TaskDom) :
    (List.lookup key input = none → load_input_matching sid key input d = Except.ok d)
    ∧ (∀ elems, List.lookup key input = some (JVal.jarr elems) →
        load_input_matching sid key input d
          = Except.ok { d with selects := d.selects.map (updSel key elems) }) :=
  ⟨fun h => load_input_none sid key input d h,
    fun elems h => load_input_arr sid key input d elems h⟩

theorem claim_c7_witness :
    load_input_matching (strL "sub1") (strL "missing") [] ⟨[⟨strL "q1_0", strL "z"⟩]⟩
        = Except.ok ⟨[⟨strL "q1_0", strL "z"⟩]⟩
    ∧ load_input_matching (strL "sub1") (strL "q1")
        [(strL "q1", JVal.jarr [strL "a", strL "b", strL "c"])]
        ⟨[⟨strL "q1_0", strL ""⟩, ⟨strL "q1_1", strL ""⟩, ⟨strL "q1_2", strL ""⟩,
          ⟨strL "zz", strL "w"⟩]⟩
      = Except.ok ⟨[⟨strL "q1_0", strL "a"⟩, ⟨strL "q1_1", strL "b"⟩, ⟨strL "q1_2", strL "c"⟩,
          ⟨strL "zz", strL "w"⟩]⟩ := by
  constructor
  · exact (claim_c7_load_input (strL "sub1") (strL "missing") [] ⟨[⟨strL "q1_0", strL "z"⟩]⟩).1
      (by decide)
  · rw [(claim_c7_load_input (strL "sub1") (strL "q1")
      [(strL "q1", JVal.jarr [strL "a", strL "b", strL "c"])]
      ⟨[⟨strL "q1_0", strL ""⟩, ⟨strL "q1_1", strL ""⟩, ⟨strL "q1_2", strL ""⟩,
        ⟨strL "zz", strL "w"⟩]⟩).2 [strL "a", strL "b", strL "c"] (by decide)]
    exact congrArg Except.ok (by decide)

/-- Claim C8: deleting a question whose container id `question-{index}-{pid}`
matches no element in the document leaves the document unchanged: a
successful no-op, not an error. -/
theorem claim_c8_delete_missing_noop (pid : Str) (question : Nat) (d : Dom)
    (h : rowContainerId pid question ∉ allIds d) :
    studio_delete_matching_question pid question d = d :=
  delete_noop pid question d h

theorem claim_c8_witness :
    studio_delete_matching_question (strL "p") 5
        (Dom.mk [⟨strL "question-0-p", [strL "question-p-0"], strL "", strL "", strL ""⟩]
          [] [] ⟨strL "t", strL "", strL ""⟩)
      = Dom.mk [⟨strL "question-0-p", [strL "question-p-0"], strL "", strL "", strL ""⟩]
          [] [] ⟨strL "t", strL "", strL ""⟩ :=
  claim_c8_delete_missing_noop (strL "p") 5
    (Dom.mk [⟨strL "question-0-p", [strL "question-p-0"], strL "", strL "", strL ""⟩]
      [] [] ⟨strL "t", strL "", strL ""⟩)
    (by decide)

/-- Claim C9: placeholder substitution is sequential, not simultaneous:
`PID` is replaced throughout first, and only then is `QUESTION` replaced by
the index, so a pid containing the text `QUESTION` gets that text replaced
by the row index in the produced markup. -/
theorem claim_c9_sequential_substitution (d : Dom) (pid u v a b : Str) (qd : Question)
    (hpid : pid = u ++ strL "QUESTION" ++ v)
    (htpl : d.template.html = a ++ strL "PID" ++ b)
    (hPa : 'P' ∉ a) (hPb : 'P' ∉ b) (hQa : 'Q' ∉ a) (hQb : 'Q' ∉ b)
    (hQu : 'Q' ∉ u) (hQv : 'Q' ∉ v) :
    ∃ r, (studio_create_matching_question pid qd d).rows = d.rows ++ [r]
      ∧ r.html = subst d.template.html pid (firstFreeIndex d pid)
      ∧ r.html = a ++ u ++ natStr (firstFreeIndex d pid) ++ v ++ b := by
  refine ⟨mkRow d.template pid (firstFreeIndex d pid) qd, create_rows_eq pid qd d, rfl, ?_⟩
  show subst d.template.html pid (firstFreeIndex d pid)
      = a ++ u ++ natStr (firstFreeIndex d pid) ++ v ++ b
  generalize firstFreeIndex d pid = i
  rw [htpl, hpid]
  exact subst_pid_carries_token a b u v i hPa hPb hQa hQu hQv hQb

theorem claim_c9_witness :
    ∃ r, (studio_create_matching_question (strL "m" ++ strL "QUESTION" ++ strL "n")
        ⟨none, none, none, none⟩
        (cleanDom ⟨strL "x" ++ strL "PID" ++ strL "y", strL "", strL ""⟩)).rows
        = (cleanDom ⟨strL "x" ++ strL "PID" ++ strL "y", strL "", strL ""⟩).rows ++ [r]
      ∧ r.html = subst (cleanDom ⟨strL "x" ++ strL "PID" ++ strL "y", strL "", strL ""⟩).template.html
          (strL "m" ++ strL "QUESTION" ++ strL "n")
          (firstFreeIndex (cleanDom ⟨strL "x" ++ strL "PID" ++ strL "y", strL "", strL ""⟩)
            (strL "m" ++ strL "QUESTION" ++ strL "n"))
      ∧ r.html = strL "x" ++ strL "m"
          ++ natStr (firstFreeIndex (cleanDom ⟨strL "x" ++ strL "PID" ++ strL "y", strL "", strL ""⟩)
            (strL "m" ++ strL "QUESTION" ++ strL "n"))
          ++ strL "n" ++ strL "y" :=
  claim_c9_sequential_substitution
    (cleanDom ⟨strL "x" ++ strL "PID" ++ strL "y", strL "", strL ""⟩)
    (strL "m" ++ strL "QUESTION" ++ strL "n") (strL "m") (strL "n") (strL "x") (strL "y")
    ⟨none, none, none, none⟩ rfl rfl
    (by decide) (by decide) (by decide) (by decide) (by decide) (by decide)

/-- Claim C10: the loader is total exactly when the value stored under a
present key is an array: a present non-array value (a plain object, null, or
a bare string) makes `input[key].entries()` throw instead of performing a
no-op, while an absent key or an array value always yields a successful
result. -/
theorem claim_c10_loader_totality (sid key : Str) (input : List (Str × JVal)) (d : TaskDom) :
    ((List.lookup key input = none ∨ ∃ elems, List.lookup key input = some (JVal.jarr elems)) →
      ∃ d2, load_input_matching sid key input d = Except.ok d2)
    ∧ (∀ v, List.lookup key input = some v → (∀ elems, v ≠ JVal.jarr elems) →
        load_input_matching sid key input d = Except.error ()) := by
  constructor
  · rintro (h | ⟨elems, h⟩)
    · exact ⟨d, load_input_none sid key input d h⟩
    · exact ⟨_, load_input_arr sid key input d elems h⟩
  · intro v h hv
    exact load_input_bad sid key input d v h hv

theorem claim_c10_witness :
    (∃ d2, load_input_matching (strL "s") (strL "k") [(strL "k", JVal.jarr [strL "a"])] ⟨[]⟩
        = Except.ok d2)
    ∧ load_input_matching (strL "s") (strL "k") [(strL "k", JVal.jnull)] ⟨[]⟩
        = Except.error () :=
  ⟨(claim_c10_loader_totality (strL "s") (strL "k") [(strL "k", JVal.jarr [strL "a"])] ⟨[]⟩).1
      (Or.inr ⟨[strL "a"], by decide⟩),
    (claim_c10_loader_totality (strL "s") (strL "k") [(strL "k", JVal.jnull)] ⟨[]⟩).2
      JVal.jnull (by decide) (fun elems h => JVal.noConfusion h)⟩
